import Mathlib

/-!
Verification of the KPI scoring and weekly aggregation engine of the
ads-monitoring dashboard.  The Python sources are shallowly embedded:
calendar dates are proleptic-Gregorian ordinals (`Nat`, day 1 = Jan 1 of
year 1, a Monday, exactly as in CPython `datetime.date.toordinal`),
money and metric values are rationals, and pandas-style row tables are
lists of structures.
-/

namespace AdsMonitoring

/-! ## Calendar model (CPython `datetime` semantics)

`pages/28_Weekly_KPI.py` and `pages/29_Weekly_Team_KPI.py` bucket dates with

  adjusted = date - timedelta(days=(date.weekday() - 1) % 7)
  return adjusted.isocalendar()[0], adjusted.isocalendar()[1]

We embed dates as CPython ordinals and reproduce `weekday`,
`isocalendar` (via `_isoweek1monday` and `_ord2ymd` from CPython
`datetime.py`) on ordinals. -/

/-- Number of days in all proleptic-Gregorian years before year `y`
(CPython `_days_before_year`). -/
def daysBeforeYear (y : Nat) : Nat :=
  365 * (y - 1) + (y - 1) / 4 - (y - 1) / 100 + (y - 1) / 400

/-- CPython `date.weekday()` on an ordinal: Monday is 0, Sunday is 6. -/
def pyWeekday (d : Nat) : Nat := (d + 6) % 7

/-- Python `%` for modulus 7 on a possibly negative integer
(Python `%` with a positive modulus is `Int.emod`), returned as a `Nat`. -/
def pyMod7 (a : Int) : Nat := (a % 7).toNat

/-- The `adjusted` date of `get_tue_mon_week`:
`date - timedelta(days=(date.weekday() - 1) % 7)`. -/
def tueAdjust (d : Nat) : Nat := d - pyMod7 ((pyWeekday d : Int) - 1)

/-- CPython `_isoweek1monday y`: ordinal of the Monday starting ISO week 1
of year `y`. -/
def isoweek1monday (y : Nat) : Nat :=
  let firstday := daysBeforeYear y + 1
  let firstweekday := (firstday + 6) % 7
  let week1monday := firstday - firstweekday
  if 3 < firstweekday then week1monday + 7 else week1monday

/-- Calendar year containing ordinal `d` (the year component of CPython
`_ord2ymd`). -/
def yearOfOrdinal (d : Nat) : Nat :=
  let n := d - 1
  let n400 := n / 146097
  let r1 := n % 146097
  let n100 := r1 / 36524
  let r2 := r1 % 36524
  let n4 := r2 / 1461
  let r3 := r2 % 1461
  let n1 := r3 / 365
  let y := 400 * n400 + 100 * n100 + 4 * n4 + n1 + 1
  if n1 = 4 ∨ n100 = 4 then y - 1 else y

/-- The `(iso_year, iso_week)` components of CPython `date.isocalendar()`
for ordinal `d`. -/
def isoPair (d : Nat) : Nat × Nat :=
  let y := yearOfOrdinal d
  let w1 := isoweek1monday y
  if d < w1 then
    (y - 1, (d - isoweek1monday (y - 1)) / 7 + 1)
  else if 52 ≤ (d - w1) / 7 ∧ isoweek1monday (y + 1) ≤ d then
    (y + 1, 1)
  else
    (y, (d - w1) / 7 + 1)

/-- `get_tue_mon_week` of `pages/28_Weekly_KPI.py` (identical in
`pages/29_Weekly_Team_KPI.py`): the Tuesday–Monday week bucket key of a
date. -/
def get_tue_mon_week (d : Nat) : Nat × Nat := isoPair (tueAdjust d)

/-- Stated from the words of the spec, for comparison with the code: the
Tuesday that starts the week containing `d`, obtained by subtracting
`(weekday - 1) mod 7` days (weekday 0 = Monday). -/
def tuesdayOfSpec (d : Nat) : Nat := d - pyMod7 ((pyWeekday d : Int) - 1)

lemma tueAdjust_of_mem_week {t d : Nat} (ht : pyWeekday t = 1)
    (h1 : t ≤ d) (h2 : d ≤ t + 6) : tueAdjust d = t := by
  unfold tueAdjust pyMod7 pyWeekday at *
  omega

/-- C1: any two dates lying in the same Tuesday-through-Monday span (the
span starting at a Tuesday ordinal `t`) get the same bucket key from
`get_tue_mon_week`, and for every date the key equals the ISO-calendar
`(year, week)` pair of the Tuesday obtained by subtracting
`(weekday - 1) mod 7` days from the date. -/
theorem get_tue_mon_week_constant_on_span (t d1 d2 : Nat)
    (ht : pyWeekday t = 1) (h11 : t ≤ d1) (h12 : d1 ≤ t + 6)
    (h21 : t ≤ d2) (h22 : d2 ≤ t + 6) :
    get_tue_mon_week d1 = get_tue_mon_week d2 ∧
    ∀ d : Nat, get_tue_mon_week d = isoPair (tuesdayOfSpec d) := by
  refine ⟨?_, fun d => rfl⟩
  unfold get_tue_mon_week
  rw [tueAdjust_of_mem_week ht h11 h12, tueAdjust_of_mem_week ht h21 h22]

/-- Witness for C1 at the concrete span Tuesday ordinal 9 through Monday
ordinal 15 (Jan 9 to Jan 15 of year 1). -/
theorem get_tue_mon_week_constant_on_span_witness :
    pyWeekday 9 = 1 ∧ 9 ≤ 15 ∧ 15 ≤ 9 + 6 ∧
    get_tue_mon_week 9 = get_tue_mon_week 15 :=
  ⟨by decide, by decide, by decide,
    (get_tue_mon_week_constant_on_span 9 9 15 (by decide) (by decide)
      (by decide) (by decide) (by decide)).1⟩

/-! ## Daily agent rows and the weekly aggregator

`build_weekly_agent_df` in `pages/28_Weekly_KPI.py` groups daily P-tab
rows by `(agent, week_key)` and, per partition, sums `cost, register,
ftd, impressions, clicks`, takes min/max of `date`, and picks the last
non-zero `arppu` after sorting the partition by date.  A pandas groupby
partition is the subsequence of input rows having that key, in input
order, so we work directly on the partition list. -/

/-- One daily P-tab row. -/
structure PRow where
  agent : String
  date : Nat
  cost : ℚ
  register : ℚ
  ftd : ℚ
  impressions : ℚ
  clicks : ℚ
  arppu : ℚ
deriving DecidableEq, Repr

/-- Date-ascending comparison on daily rows. -/
def dle (a b : PRow) : Prop := a.date ≤ b.date

/-- Insert a row into a date-sorted list, before the first strictly later
row (so that the overall sort is stable, keeping input order on ties). -/
def insertByDate (r : PRow) : List PRow → List PRow
  | [] => [r]
  | x :: xs => if r.date ≤ x.date then r :: x :: xs else x :: insertByDate r xs

/-- Stable sort of a partition by date ascending, embedding
`grp.sort_values(date)`. -/
def sortByDate : List PRow → List PRow
  | [] => []
  | r :: rs => insertByDate r (sortByDate rs)

/-- ARPPU pick of `build_weekly_agent_df`: sort the partition by date,
keep rows with `arppu > 0`, take the last one (0 when none). -/
def arppuPick (part : List PRow) : ℚ :=
  match ((sortByDate part).filter (fun r => decide (0 < r.arppu))).getLast? with
  | some r => r.arppu
  | none => 0

/-- ARPPU pick of `calculate_kpi_from_daily` in
`pages/24_KPI_Monitoring.py`: the filtered daily frame is NOT re-sorted
by date; the last non-zero `arppu` is taken in input row order. -/
def arppuPickDaily (part : List PRow) : ℚ :=
  match (part.filter (fun r => decide (0 < r.arppu))).getLast? with
  | some r => r.arppu
  | none => 0

/-- Stated from the words of the spec, for comparison with the code: the
`arppu` of the last row in date-ascending order whose `arppu` is
strictly positive, or 0 when no such row exists. -/
def arppuPickSpec (part : List PRow) : ℚ :=
  match (sortByDate part).reverse.find? (fun r => decide (0 < r.arppu)) with
  | some r => r.arppu
  | none => 0

/-- Summed cost of a partition. -/
def sumCost (part : List PRow) : ℚ := (part.map PRow.cost).sum

/-- Summed registrations of a partition. -/
def sumRegister (part : List PRow) : ℚ := (part.map PRow.register).sum

/-- Summed first-time deposits of a partition. -/
def sumFtd (part : List PRow) : ℚ := (part.map PRow.ftd).sum

/-- Summed impressions of a partition. -/
def sumImpressions (part : List PRow) : ℚ := (part.map PRow.impressions).sum

/-- Summed clicks of a partition. -/
def sumClicks (part : List PRow) : ℚ := (part.map PRow.clicks).sum

/-- Minimum of a list of naturals, `none` on the empty list. -/
def omin (l : List Nat) : Option Nat :=
  l.foldr (fun x acc => match acc with
    | none => some x
    | some m => some (min x m)) none

/-- Maximum of a list of naturals, `none` on the empty list. -/
def omax (l : List Nat) : Option Nat :=
  l.foldr (fun x acc => match acc with
    | none => some x
    | some m => some (max x m)) none

/-- The partition's `date_start` aggregate (min of dates). -/
def dateStart (part : List PRow) : Option Nat := omin (part.map PRow.date)

/-- The partition's `date_end` aggregate (max of dates). -/
def dateEnd (part : List PRow) : Option Nat := omax (part.map PRow.date)

/-- The `days` column of `build_weekly_agent_df`
(`(date_end - date_start).dt.days + 1`, same formula in
`build_weekly_team_df`). -/
def daysOf (part : List PRow) : Option Nat :=
  match dateStart part, dateEnd part with
  | some a, some b => some (b - a + 1)
  | _, _ => none

/-- The partial-week flag of the weekly pages: a warning tag is shown
exactly when `days < 7`. -/
def partialWeekFlag (part : List PRow) : Bool :=
  match daysOf part with
  | some n => decide (n < 7)
  | none => false

/-- Stated from the words of the spec, for comparison with the code: the
count of distinct calendar dates having at least one row in the
partition. -/
def distinctDateCount (part : List PRow) : Nat := (part.map PRow.date).dedup.length

/-! ### Lemmas about the stable date sort and the ARPPU pick -/

lemma insertByDate_perm (r : PRow) (l : List PRow) :
    (insertByDate r l).Perm (r :: l) := by
  induction l with
  | nil => simp [insertByDate]
  | cons x xs ih =>
    by_cases h : r.date ≤ x.date
    · simp [insertByDate, h]
    · simp only [insertByDate, if_neg h]
      exact (ih.cons x).trans (List.Perm.swap r x xs)

lemma sortByDate_perm (l : List PRow) : (sortByDate l).Perm l := by
  induction l with
  | nil => simp [sortByDate]
  | cons r rs ih => exact (insertByDate_perm r (sortByDate rs)).trans (ih.cons r)

lemma insertByDate_pairwise {l : List PRow} (r : PRow) (h : l.Pairwise dle) :
    (insertByDate r l).Pairwise dle := by
  induction l with
  | nil => simp [insertByDate, dle]
  | cons x xs ih =>
    rw [List.pairwise_cons] at h
    obtain ⟨hx, hxs⟩ := h
    by_cases hc : r.date ≤ x.date
    · simp only [insertByDate, if_pos hc]
      refine List.Pairwise.cons ?_ (List.Pairwise.cons hx hxs)
      intro b hb
      rcases List.mem_cons.mp hb with rfl | hb
      · exact hc
      · exact le_trans hc (hx b hb)
    · simp only [insertByDate, if_neg hc]
      refine List.Pairwise.cons ?_ (ih hxs)
      intro b hb
      have hb2 : b ∈ r :: xs := (insertByDate_perm r xs).mem_iff.mp hb
      rcases List.mem_cons.mp hb2 with rfl | hb2
      · exact le_of_lt (lt_of_not_le hc)
      · exact hx b hb2

lemma sortByDate_pairwise (l : List PRow) : (sortByDate l).Pairwise dle := by
  induction l with
  | nil => simp [sortByDate]
  | cons r rs ih => exact insertByDate_pairwise r ih

lemma sortByDate_eq_of_pairwise {l : List PRow} (h : l.Pairwise dle) :
    sortByDate l = l := by
  induction h with
  | nil => rfl
  | @cons r rs hr hrs ih =>
    rw [sortByDate, ih]
    cases rs with
    | nil => rfl
    | cons x xs =>
      have hx : r.date ≤ x.date := hr x (List.mem_cons_self x xs)
      simp [insertByDate, hx]

lemma getLast_date_max :
    ∀ (l : List PRow), l.Pairwise dle → ∀ (h : l ≠ []),
      ∀ y ∈ l, y.date ≤ (l.getLast h).date := by
  intro l
  induction l with
  | nil => intro _ h; cases h rfl
  | cons x xs ih =>
    intro hp h y hy
    rw [List.pairwise_cons] at hp
    cases xs with
    | nil =>
      rcases List.mem_cons.mp hy with rfl | hy2
      · exact le_refl _
      · cases hy2
    | cons z zs =>
      have hne : z :: zs ≠ [] := List.cons_ne_nil z zs
      have hlast : (x :: z :: zs).getLast h = (z :: zs).getLast hne :=
        List.getLast_cons hne
      rcases List.mem_cons.mp hy with rfl | hy2
      · rw [hlast]
        exact hp.1 _ (List.getLast_mem hne)
      · rw [hlast]
        exact ih hp.2 hne y hy2

lemma find?_eq_head?_filter {α : Type} (p : α → Bool) (l : List α) :
    l.find? p = (l.filter p).head? := by
  induction l with
  | nil => rfl
  | cons a l ih =>
    cases h : p a
    · rw [List.find?_cons, h, List.filter_cons, h]
      simpa using ih
    · rw [List.find?_cons, h, List.filter_cons, h]
      simp

lemma filter_getLast?_eq_find?_rev {α : Type} (p : α → Bool) (l : List α) :
    (l.filter p).getLast? = l.reverse.find? p := by
  rw [List.getLast?_eq_head?_reverse, ← List.filter_reverse,
    find?_eq_head?_filter]

lemma arppuPick_eq_spec (part : List PRow) : arppuPick part = arppuPickSpec part := by
  unfold arppuPick arppuPickSpec
  rw [filter_getLast?_eq_find?_rev]

lemma arppuPick_of_no_pos {part : List PRow}
    (h : ∀ r ∈ part, ¬ 0 < r.arppu) : arppuPick part = 0 := by
  unfold arppuPick
  have hfl : (sortByDate part).filter (fun r => decide (0 < r.arppu)) = [] := by
    rw [List.filter_eq_nil]
    intro r hr
    have : r ∈ part := (sortByDate_perm part).mem_iff.mp hr
    simpa using h r this
  rw [hfl]
  rfl

lemma arppuPick_mem {part : List PRow} {r0 : PRow}
    (h0 : r0 ∈ part) (hpos : 0 < r0.arppu) :
    ∃ r ∈ part, 0 < r.arppu ∧ arppuPick part = r.arppu ∧
      ∀ s ∈ part, 0 < s.arppu → s.date ≤ r.date := by
  unfold arppuPick
  set fl := (sortByDate part).filter (fun r => decide (0 < r.arppu)) with hfl
  have hne : fl ≠ [] := by
    have : r0 ∈ fl := by
      rw [hfl, List.mem_filter]
      exact ⟨(sortByDate_perm part).mem_iff.mpr h0, by simpa using hpos⟩
    exact List.ne_nil_of_mem this
  have hlastq : fl.getLast? = some (fl.getLast hne) := List.getLast?_eq_getLast fl hne
  refine ⟨fl.getLast hne, ?_, ?_, ?_, ?_⟩
  · have hm : fl.getLast hne ∈ fl := List.getLast_mem hne
    exact (sortByDate_perm part).mem_iff.mp (List.mem_filter.mp hm).1
  · have hm : fl.getLast hne ∈ fl := List.getLast_mem hne
    simpa using (List.mem_filter.mp hm).2
  · rw [hlastq]
  · intro s hs hspos
    have hsfl : s ∈ fl := by
      rw [hfl, List.mem_filter]
      exact ⟨(sortByDate_perm part).mem_iff.mpr hs, by simpa using hspos⟩
    have hpw : fl.Pairwise dle := by
      rw [hfl]
      exact (sortByDate_pairwise part).filter _
    exact getLast_date_max fl hpw hne s hsfl

instance : DecidableRel dle := fun a b => inferInstanceAs (Decidable (a.date ≤ b.date))

lemma omin_cons (x : Nat) (l : List Nat) :
    omin (x :: l) = match omin l with
      | none => some x
      | some m => some (min x m) := rfl

lemma omax_cons (x : Nat) (l : List Nat) :
    omax (x :: l) = match omax l with
      | none => some x
      | some m => some (max x m) := rfl

lemma omin_spec : ∀ (l : List Nat), l ≠ [] →
    ∃ a, omin l = some a ∧ a ∈ l ∧ ∀ x ∈ l, a ≤ x := by
  intro l
  induction l with
  | nil => intro h; cases h rfl
  | cons x xs ih =>
    intro _
    cases xs with
    | nil =>
      refine ⟨x, rfl, List.mem_singleton_self x, ?_⟩
      intro z hz
      rcases List.mem_singleton.mp hz with rfl
      exact le_refl _
    | cons y ys =>
      obtain ⟨b, hb, hbmem, hble⟩ := ih (List.cons_ne_nil y ys)
      refine ⟨min x b, ?_, ?_, ?_⟩
      · rw [omin_cons, hb]
      · rcases le_total x b with hxb | hbx
        · rw [min_eq_left hxb]; exact List.mem_cons_self _ _
        · rw [min_eq_right hbx]; exact List.mem_cons_of_mem _ hbmem
      · intro z hz
        rcases List.mem_cons.mp hz with rfl | hz2
        · exact min_le_left _ _
        · exact le_trans (min_le_right _ _) (hble z hz2)

lemma omax_spec : ∀ (l : List Nat), l ≠ [] →
    ∃ b, omax l = some b ∧ b ∈ l ∧ ∀ x ∈ l, x ≤ b := by
  intro l
  induction l with
  | nil => intro h; cases h rfl
  | cons x xs ih =>
    intro _
    cases xs with
    | nil =>
      refine ⟨x, rfl, List.mem_singleton_self x, ?_⟩
      intro z hz
      rcases List.mem_singleton.mp hz with rfl
      exact le_refl _
    | cons y ys =>
      obtain ⟨b, hb, hbmem, hble⟩ := ih (List.cons_ne_nil y ys)
      refine ⟨max x b, ?_, ?_, ?_⟩
      · rw [omax_cons, hb]
      · rcases le_total x b with hxb | hbx
        · rw [max_eq_right hxb]; exact List.mem_cons_of_mem _ hbmem
        · rw [max_eq_left hbx]; exact List.mem_cons_self _ _
      · intro z hz
        rcases List.mem_cons.mp hz with rfl | hz2
        · exact le_max_left _ _
        · exact le_trans (hble z hz2) (le_max_right _ _)

lemma omin_perm {l1 l2 : List Nat} (h : l1.Perm l2) : omin l1 = omin l2 := by
  induction h with
  | nil => rfl
  | cons x _ ih => rw [omin_cons, omin_cons, ih]
  | swap x y l =>
    cases h : omin l <;>
      simp only [omin_cons, h, Option.some.injEq] <;> omega
  | trans _ _ ih1 ih2 => exact ih1.trans ih2

lemma omax_perm {l1 l2 : List Nat} (h : l1.Perm l2) : omax l1 = omax l2 := by
  induction h with
  | nil => rfl
  | cons x _ ih => rw [omax_cons, omax_cons, ih]
  | swap x y l =>
    cases h : omax l <;>
      simp only [omax_cons, h, Option.some.injEq] <;> omega
  | trans _ _ ih1 ih2 => exact ih1.trans ih2

/-! ### C2 — ARPPU pick -/

/-- C2 counterexample: `calculate_kpi_from_daily` does not re-sort the
partition by date; on rows arriving in the order Wed(arppu 50),
Tue(arppu 0), Mon(arppu 70) it picks 70, while the claim's
last-positive-in-date-ascending-order pick is 50 (date 8 is a Monday,
9 a Tuesday, 10 a Wednesday). -/
theorem arppu_pick_daily_counterexample :
    arppuPickDaily
        [⟨"X", 10, 0, 0, 0, 0, 0, 50⟩, ⟨"X", 9, 0, 0, 0, 0, 0, 0⟩,
          ⟨"X", 8, 0, 0, 0, 0, 0, 70⟩] = 70 ∧
    arppuPickSpec
        [⟨"X", 10, 0, 0, 0, 0, 0, 50⟩, ⟨"X", 9, 0, 0, 0, 0, 0, 0⟩,
          ⟨"X", 8, 0, 0, 0, 0, 0, 70⟩] = 50 ∧
    (70 : ℚ) ≠ 50 := by decide

/-- C2 (amended): the weekly aggregator `build_weekly_agent_df` picks
the `arppu` of the last row in date-ascending order whose `arppu` is
strictly positive (0 when none); `calculate_kpi_from_daily` picks the
last positive `arppu` in input row order, which coincides whenever the
partition arrives date-ascending; the rows
Mon(arppu 0), Tue(arppu 50), Wed(arppu 0) yield ARPPU 50. -/
theorem arppu_last_nonzero_pick (part : List PRow) :
    arppuPick part = arppuPickSpec part ∧
    (part.Pairwise dle → arppuPickDaily part = arppuPick part) ∧
    arppuPick
        [⟨"X", 8, 0, 0, 0, 0, 0, 0⟩, ⟨"X", 9, 0, 0, 0, 0, 0, 50⟩,
          ⟨"X", 10, 0, 0, 0, 0, 0, 0⟩] = 50 := by
  refine ⟨arppuPick_eq_spec part, ?_, by decide⟩
  intro hs
  unfold arppuPickDaily arppuPick
  rw [sortByDate_eq_of_pairwise hs]

/-- Witness for C2 at a concrete date-ascending partition. -/
theorem arppu_last_nonzero_pick_witness :
    ([⟨"Y", 8, 0, 0, 0, 0, 0, 3⟩, ⟨"Y", 9, 0, 0, 0, 0, 0, 4⟩] :
        List PRow).Pairwise dle ∧
    arppuPickDaily [⟨"Y", 8, 0, 0, 0, 0, 0, 3⟩, ⟨"Y", 9, 0, 0, 0, 0, 0, 4⟩] =
      arppuPick [⟨"Y", 8, 0, 0, 0, 0, 0, 3⟩, ⟨"Y", 9, 0, 0, 0, 0, 0, 4⟩] :=
  ⟨by decide,
    (arppu_last_nonzero_pick
      [⟨"Y", 8, 0, 0, 0, 0, 0, 3⟩, ⟨"Y", 9, 0, 0, 0, 0, 0, 4⟩]).2.1
      (by decide)⟩

/-! ### C7 — days covered -/

/-- C7 counterexample: a weekly partition with rows only on the Tuesday
(ordinal 9) and the following Monday (ordinal 15) of one Tue-Mon week
has 2 distinct dates, yet the code computes
`days = date_end - date_start + 1 = 7` and shows no partial-week flag,
while the claim requires `days = 2` and a partial flag. -/
theorem days_covered_counterexample :
    distinctDateCount
        [⟨"X", 9, 0, 0, 0, 0, 0, 0⟩, ⟨"X", 15, 0, 0, 0, 0, 0, 0⟩] = 2 ∧
    daysOf [⟨"X", 9, 0, 0, 0, 0, 0, 0⟩, ⟨"X", 15, 0, 0, 0, 0, 0, 0⟩] =
      some 7 ∧
    partialWeekFlag
        [⟨"X", 9, 0, 0, 0, 0, 0, 0⟩, ⟨"X", 15, 0, 0, 0, 0, 0, 0⟩] = false ∧
    get_tue_mon_week 9 = get_tue_mon_week 15 ∧
    daysOf [⟨"X", 9, 0, 0, 0, 0, 0, 0⟩, ⟨"X", 15, 0, 0, 0, 0, 0, 0⟩] ≠
      some (distinctDateCount
        [⟨"X", 9, 0, 0, 0, 0, 0, 0⟩, ⟨"X", 15, 0, 0, 0, 0, 0, 0⟩]) := by
  decide

/-- C7 (amended): for every non-empty partition the `days` value tracked
by the aggregator equals the inclusive span
`date_end - date_start + 1`, which is an upper bound on the count of
distinct dates with at least one row, and the weekly bucket is flagged
partial exactly when that span is less than 7. -/
theorem days_is_inclusive_span (part : List PRow) (h : part ≠ []) :
    ∃ a b, dateStart part = some a ∧ dateEnd part = some b ∧ a ≤ b ∧
      daysOf part = some (b - a + 1) ∧
      distinctDateCount part ≤ b - a + 1 ∧
      (partialWeekFlag part = true ↔ b - a + 1 < 7) := by
  have hds : part.map PRow.date ≠ [] := by
    intro hc
    exact h (List.map_eq_nil.mp hc)
  obtain ⟨a, ha, hamem, hale⟩ := omin_spec (part.map PRow.date) hds
  obtain ⟨b, hb, hbmem, hble⟩ := omax_spec (part.map PRow.date) hds
  have hab : a ≤ b := hale b hbmem
  have hdays : daysOf part = some (b - a + 1) := by
    unfold daysOf dateStart dateEnd
    rw [ha, hb]
  refine ⟨a, b, ha, hb, hab, hdays, ?_, ?_⟩
  · unfold distinctDateCount
    rw [← List.card_toFinset]
    have hsub : (part.map PRow.date).toFinset ⊆ Finset.Icc a b := by
      intro x hx
      have hxl : x ∈ part.map PRow.date := List.mem_toFinset.mp hx
      exact Finset.mem_Icc.mpr ⟨hale x hxl, hble x hxl⟩
    have := Finset.card_le_card hsub
    rw [Nat.card_Icc] at this
    omega
  · unfold partialWeekFlag
    rw [hdays]
    simp

/-- Witness for C7 at a concrete one-row partition. -/
theorem days_is_inclusive_span_witness :
    ([⟨"Z", 9, 0, 0, 0, 0, 0, 0⟩] : List PRow) ≠ [] ∧
    ∃ a b, dateStart [(⟨"Z", 9, 0, 0, 0, 0, 0, 0⟩ : PRow)] = some a ∧
      dateEnd [(⟨"Z", 9, 0, 0, 0, 0, 0, 0⟩ : PRow)] = some b ∧ a ≤ b ∧
      daysOf [(⟨"Z", 9, 0, 0, 0, 0, 0, 0⟩ : PRow)] = some (b - a + 1) ∧
      distinctDateCount [(⟨"Z", 9, 0, 0, 0, 0, 0, 0⟩ : PRow)] ≤ b - a + 1 ∧
      (partialWeekFlag [(⟨"Z", 9, 0, 0, 0, 0, 0, 0⟩ : PRow)] = true ↔
        b - a + 1 < 7) :=
  ⟨by decide, days_is_inclusive_span [⟨"Z", 9, 0, 0, 0, 0, 0, 0⟩] (by decide)⟩

/-! ### C10 — order independence of aggregation -/

/-- C10 counterexample: two rows of one partition sharing the same date,
with arppu 50 and 30, picked in swapped input orders: the ARPPU pick of
`build_weekly_agent_df` changes with the input order, because the date
sort cannot separate equal dates. -/
theorem aggregate_perm_counterexample :
    List.Perm
        [(⟨"X", 9, 0, 0, 0, 0, 0, 50⟩ : PRow), ⟨"X", 9, 0, 0, 0, 0, 0, 30⟩]
        [⟨"X", 9, 0, 0, 0, 0, 0, 30⟩, ⟨"X", 9, 0, 0, 0, 0, 0, 50⟩] ∧
    arppuPick
        [⟨"X", 9, 0, 0, 0, 0, 0, 50⟩, ⟨"X", 9, 0, 0, 0, 0, 0, 30⟩] = 30 ∧
    arppuPick
        [⟨"X", 9, 0, 0, 0, 0, 0, 30⟩, ⟨"X", 9, 0, 0, 0, 0, 0, 50⟩] = 50 ∧
    (30 : ℚ) ≠ 50 := by decide

/-- C10 (amended): aggregation of any permuted row list gives identical
sums of cost, register, ftd, impressions and clicks, and identical
`date_start` and `date_end`; the ARPPU pick is also identical provided
the partition's rows carry pairwise distinct dates. -/
theorem aggregate_order_independent (l1 l2 : List PRow) (h : l1.Perm l2) :
    sumCost l1 = sumCost l2 ∧ sumRegister l1 = sumRegister l2 ∧
    sumFtd l1 = sumFtd l2 ∧ sumImpressions l1 = sumImpressions l2 ∧
    sumClicks l1 = sumClicks l2 ∧ dateStart l1 = dateStart l2 ∧
    dateEnd l1 = dateEnd l2 ∧
    ((l1.map PRow.date).Nodup → arppuPick l1 = arppuPick l2) := by
  refine ⟨(h.map PRow.cost).sum_eq, (h.map PRow.register).sum_eq,
    (h.map PRow.ftd).sum_eq, (h.map PRow.impressions).sum_eq,
    (h.map PRow.clicks).sum_eq, omin_perm (h.map PRow.date),
    omax_perm (h.map PRow.date), ?_⟩
  intro hnd
  by_cases hex : ∃ r ∈ l1, 0 < r.arppu
  · obtain ⟨r0, hr0, hp0⟩ := hex
    obtain ⟨r1, hr1, hp1, he1, hm1⟩ := arppuPick_mem hr0 hp0
    obtain ⟨r2, hr2, hp2, he2, hm2⟩ :=
      arppuPick_mem (h.subset hr0) hp0
    have hr2l1 : r2 ∈ l1 := h.symm.subset hr2
    have hd12 : r1.date ≤ r2.date := hm2 r1 (h.subset hr1) hp1
    have hd21 : r2.date ≤ r1.date := hm1 r2 hr2l1 hp2
    have heq : r1 = r2 :=
      List.inj_on_of_nodup_map hnd hr1 hr2l1 (le_antisymm hd12 hd21)
    rw [he1, he2, heq]
  · have hex1 : ∀ r ∈ l1, ¬ 0 < r.arppu := fun r hr hp => hex ⟨r, hr, hp⟩
    rw [arppuPick_of_no_pos hex1,
      arppuPick_of_no_pos (fun r hr => hex1 r (h.symm.subset hr))]

/-- Witness for C10 at a concrete permuted pair of partitions with
distinct dates. -/
theorem aggregate_order_independent_witness :
    List.Perm
        [(⟨"W", 8, 1, 0, 0, 0, 0, 3⟩ : PRow), ⟨"W", 9, 2, 0, 0, 0, 0, 4⟩]
        [⟨"W", 9, 2, 0, 0, 0, 0, 4⟩, ⟨"W", 8, 1, 0, 0, 0, 0, 3⟩] ∧
    sumCost [(⟨"W", 8, 1, 0, 0, 0, 0, 3⟩ : PRow), ⟨"W", 9, 2, 0, 0, 0, 0, 4⟩] =
      sumCost [⟨"W", 9, 2, 0, 0, 0, 0, 4⟩, ⟨"W", 8, 1, 0, 0, 0, 0, 3⟩] ∧
    arppuPick [(⟨"W", 8, 1, 0, 0, 0, 0, 3⟩ : PRow), ⟨"W", 9, 2, 0, 0, 0, 0, 4⟩] =
      arppuPick [⟨"W", 9, 2, 0, 0, 0, 0, 4⟩, ⟨"W", 8, 1, 0, 0, 0, 0, 3⟩] := by
  have h := aggregate_order_independent
    [⟨"W", 8, 1, 0, 0, 0, 0, 3⟩, ⟨"W", 9, 2, 0, 0, 0, 0, 4⟩]
    [⟨"W", 9, 2, 0, 0, 0, 0, 4⟩, ⟨"W", 8, 1, 0, 0, 0, 0, 3⟩] (by decide)
  exact ⟨by decide, h.1, h.2.2.2.2.2.2.2 (by decide)⟩

/-! ## Derived metrics (zero-denominator convention)

Embeds the apply-lambdas of `build_weekly_agent_df`
(`pages/28_Weekly_KPI.py` lines 75-80), the variants of
`calculate_kpi_from_daily` (`pages/24_KPI_Monitoring.py` lines 139-157)
and the team `cpfd` of `build_weekly_team_df`
(`pages/29_Weekly_Team_KPI.py` line 71).  The fixed FX rate
`KPI_PHP_USD_RATE` lives in configuration not present among the
sources, so it is a parameter here; the zero guards do not depend on
it. -/

/-- `cost / ftd if ftd > 0 else 0` (also the `cpd` of
`calculate_kpi_from_daily`). -/
def cpaOf (cost ftd : ℚ) : ℚ := if 0 < ftd then cost / ftd else 0

/-- The weekly ROAS lambda:
`arppu / RATE / (cost / ftd) if ftd > 0 and cost > 0 else 0`. -/
def roasOf (rate arppu cost ftd : ℚ) : ℚ :=
  if 0 < ftd ∧ 0 < cost then arppu / rate / (cost / ftd) else 0

/-- The ROAS of `calculate_kpi_from_daily`:
`arppu / RATE / cpd if cpd > 0 and arppu > 0 else 0`. -/
def roasDailyOf (rate arppu cost ftd : ℚ) : ℚ :=
  if 0 < cpaOf cost ftd ∧ 0 < arppu then arppu / rate / cpaOf cost ftd else 0

/-- `ftd / register * 100 if register > 0 else 0`. -/
def cvrOf (ftd register : ℚ) : ℚ :=
  if 0 < register then ftd / register * 100 else 0

/-- `clicks / impressions * 100 if impressions > 0 else 0`. -/
def ctrOf (clicks impressions : ℚ) : ℚ :=
  if 0 < impressions then clicks / impressions * 100 else 0

/-- Team `cpfd`: `cost / first_recharge if first_recharge > 0 else 0`. -/
def cpfdOf (cost fr : ℚ) : ℚ := if 0 < fr then cost / fr else 0

/-- C5: every derived metric with a zero denominator evaluates to 0: a
zero `ftd` gives `cpa = 0` and `roas = 0` (in both the weekly and the
daily-range variants), a zero `register` gives `cvr = 0`, a zero
`impressions` gives `ctr = 0`, and a zero `first_recharge` gives
`cpfd = 0`; all computations are total functions, so no input raises. -/
theorem derived_metrics_zero_safe
    (rate cost ftd register impressions clicks arppu fr : ℚ) :
    (ftd = 0 → cpaOf cost ftd = 0 ∧ roasOf rate arppu cost ftd = 0 ∧
      roasDailyOf rate arppu cost ftd = 0) ∧
    (register = 0 → cvrOf ftd register = 0) ∧
    (impressions = 0 → ctrOf clicks impressions = 0) ∧
    (fr = 0 → cpfdOf cost fr = 0) := by
  refine ⟨?_, ?_, ?_, ?_⟩ <;> intro h <;> subst h <;>
    simp [cpaOf, roasOf, roasDailyOf, cvrOf, ctrOf, cpfdOf]

/-- Witness for C5 at all-zero sums. -/
theorem derived_metrics_zero_safe_witness :
    cpaOf 5 0 = 0 ∧ roasOf 56 7 5 0 = 0 ∧ roasDailyOf 56 7 5 0 = 0 ∧
    cvrOf 3 0 = 0 ∧ ctrOf 3 0 = 0 ∧ cpfdOf 5 0 = 0 := by
  have h := derived_metrics_zero_safe 56 5 0 0 0 3 7 0
  obtain ⟨h1, h2, h3⟩ := h.1 rfl
  exact ⟨h1, h2, h3, h.2.1 rfl, h.2.2.1 rfl, h.2.2.2 rfl⟩

/-! ## Week-over-week delta (`arrow_delta`, `pages/28_Weekly_KPI.py`) -/

/-- Direction judgment rendered by `arrow_delta` (the em-dash and the
sub-0.1-percent arrow both read as flat). -/
inductive Direction where
  | flat
  | fresh
  | favorable
  | unfavorable
deriving DecidableEq, Repr

/-- The WoW percent: `(curr - prev) / abs(prev) * 100`. -/
def wowPct (curr prev : ℚ) : ℚ := (curr - prev) / |prev| * 100

/-- Decision structure of `arrow_delta(curr, prev, higher_is_better)`:
`—` when both are 0, `new` when only `prev` is 0, flat below 0.1
percent absolute change, otherwise favorable iff the sign of the
percent agrees with `higher_is_better` (`fresh` stands for the code's
"new" arrow). -/
def arrow_delta (curr prev : ℚ) (hib : Bool) : Direction :=
  if prev = 0 ∧ curr = 0 then .flat
  else if prev = 0 then .fresh
  else if |wowPct curr prev| < 1/10 then .flat
  else if decide (0 < wowPct curr prev) = hib then .favorable
  else .unfavorable

/-- C6: `arrow_delta` is flat when both values are 0, "new" when only
the previous is 0, flat when the absolute percent
`(curr - prev)/|prev|*100` is below 0.1, and otherwise favorable
exactly when the percent being positive agrees with
`higher_is_better`. -/
theorem arrow_delta_spec (curr prev : ℚ) (hib : Bool) :
    (prev = 0 ∧ curr = 0 → arrow_delta curr prev hib = .flat) ∧
    (prev = 0 ∧ curr ≠ 0 → arrow_delta curr prev hib = .fresh) ∧
    (prev ≠ 0 →
      (|wowPct curr prev| < 1/10 → arrow_delta curr prev hib = .flat) ∧
      (¬ |wowPct curr prev| < 1/10 →
        (arrow_delta curr prev hib = .favorable ↔
          (0 < wowPct curr prev ↔ hib = true)) ∧
        (arrow_delta curr prev hib = .unfavorable ↔
          ¬ (0 < wowPct curr prev ↔ hib = true)))) := by
  refine ⟨?_, ?_, ?_⟩
  · intro h
    rw [arrow_delta, if_pos h]
  · intro ⟨h1, h2⟩
    rw [arrow_delta, if_neg (fun hc => h2 hc.2), if_pos h1]
  · intro hp
    have hn1 : ¬ (prev = 0 ∧ curr = 0) := fun hc => hp hc.1
    constructor
    · intro hsmall
      rw [arrow_delta, if_neg hn1, if_neg hp, if_pos hsmall]
    · intro hbig
      rw [arrow_delta, if_neg hn1, if_neg hp, if_neg hbig]
      by_cases hc : decide (0 < wowPct curr prev) = hib
      · rw [if_pos hc]
        cases hib <;> simp_all
      · rw [if_neg hc]
        cases hib <;> simp_all

/-- Witness for C6: previous ROAS 0.20, current 0.25 is a +25 percent
change, favorable for a higher-is-better metric (Scenario E). -/
theorem arrow_delta_spec_witness :
    (1/5 : ℚ) ≠ 0 ∧ wowPct (1/4) (1/5) = 25 ∧
    arrow_delta (1/4) (1/5) true = Direction.favorable := by
  have habs : |(1/5 : ℚ)| = 1/5 := abs_of_pos (by norm_num)
  have hpct : wowPct (1/4) (1/5) = 25 := by
    rw [wowPct, habs]; norm_num
  have h25 : |(25 : ℚ)| = 25 := abs_of_pos (by norm_num)
  have h := (arrow_delta_spec (1/4) (1/5) true).2.2 (by norm_num)
  refine ⟨by norm_num, hpct, ?_⟩
  exact (h.2 (by rw [hpct, h25]; norm_num)).1.mpr (by rw [hpct]; norm_num)

/-! ## KPI scorer (CPA tiers) -/

/-- Modelled from the spec: `score_kpi` is defined in
`channel_data_loader.py`, which is not among the sources.  The CPA tier
table follows the spec (and the `PARAM_TEXT` display string of
`pages/24_KPI_Monitoring.py`): lower is better, score 4 for values up
to 9.99, 3 up to 13.99, 2 up to 15.00, 1 above, and score 0 (not
applicable) for a metric value of exactly 0. -/
def score_kpi_cpa (v : ℚ) : Nat :=
  if v = 0 then 0
  else if v ≤ 999/100 then 4
  else if v ≤ 1399/100 then 3
  else if v ≤ 15 then 2
  else 1

/-- C3: for every positive CPA value the scorer returns 4 on values up
to 9.99, 3 between 10.00 and 13.99, 2 between 14.00 and 15.00 and 1
above 15.00; the boundary value 9.99 scores 4 while 10.00 scores 3. -/
theorem score_kpi_cpa_tiers (v : ℚ) (hv : 0 < v) :
    (v ≤ 999/100 → score_kpi_cpa v = 4) ∧
    (10 ≤ v ∧ v ≤ 1399/100 → score_kpi_cpa v = 3) ∧
    (14 ≤ v ∧ v ≤ 15 → score_kpi_cpa v = 2) ∧
    (15 < v → score_kpi_cpa v = 1) ∧
    score_kpi_cpa (999/100) = 4 ∧ score_kpi_cpa 10 = 3 := by
  have hne : v ≠ 0 := ne_of_gt hv
  refine ⟨?_, ?_, ?_, ?_, ?_, ?_⟩
  · intro h
    rw [score_kpi_cpa, if_neg hne, if_pos h]
  · intro ⟨h1, h2⟩
    rw [score_kpi_cpa, if_neg hne, if_neg (by linarith), if_pos h2]
  · intro ⟨h1, h2⟩
    rw [score_kpi_cpa, if_neg hne, if_neg (by linarith),
      if_neg (by linarith), if_pos h2]
  · intro h
    rw [score_kpi_cpa, if_neg hne, if_neg (by linarith),
      if_neg (by linarith), if_neg (by linarith)]
  · rw [score_kpi_cpa, if_neg (by norm_num), if_pos (by norm_num)]
  · rw [score_kpi_cpa, if_neg (by norm_num), if_neg (by norm_num),
      if_pos (by norm_num)]

/-- Witness for C3 at the concrete CPA value 12. -/
theorem score_kpi_cpa_tiers_witness :
    (0 : ℚ) < 12 ∧ score_kpi_cpa 12 = 3 :=
  ⟨by norm_num,
    (score_kpi_cpa_tiers 12 (by norm_num)).2.1 ⟨by norm_num, by norm_num⟩⟩

/-! ## Weighted totals (`pages/24_KPI_Monitoring.py`)

`calc_auto_weighted` sums `score * weight` over the auto KPI table
(skipping non-positive weights), `calc_manual_weighted` sums
`score * weight` over the manual KPI table (skipping non-positive
scores and weights), each rounded to two decimals with Python `round`
(banker's rounding), and `grand_total` is their rounded sum.  The
weight values live in `KPI_SCORING` / `KPI_MANUAL` of the configuration,
which is not among the sources; they are modelled from the spec as
abstract non-negative weight tables summing to 0.75 and 0.25 of the
scale. -/

/-- Python `round` to an integer: nearest, ties to even. -/
def pyRound (q : ℚ) : ℤ :=
  if q - ⌊q⌋ < 1/2 then ⌊q⌋
  else if 1/2 < q - ⌊q⌋ then ⌊q⌋ + 1
  else if Even ⌊q⌋ then ⌊q⌋ else ⌊q⌋ + 1

/-- Python `round(q, 2)`. -/
def round2 (q : ℚ) : ℚ := (pyRound (q * 100) : ℚ) / 100

/-- One auto KPI contribution: `score * weight if weight > 0 else 0`. -/
def autoTerm (p : ℚ × ℚ) : ℚ := if 0 < p.2 then p.1 * p.2 else 0

/-- One manual KPI contribution:
`score * weight if score > 0 and weight > 0 else 0`. -/
def manualTerm (p : ℚ × ℚ) : ℚ := if 0 < p.1 ∧ 0 < p.2 then p.1 * p.2 else 0

/-- `calc_auto_weighted` over a (score, weight) table. -/
def calc_auto_weighted (sw : List (ℚ × ℚ)) : ℚ :=
  round2 ((sw.map autoTerm).sum)

/-- `calc_manual_weighted` over a (score, weight) table. -/
def calc_manual_weighted (sw : List (ℚ × ℚ)) : ℚ :=
  round2 ((sw.map manualTerm).sum)

/-- `grand_total = round(auto_weighted_total + manual_weighted_total, 2)`. -/
def grand_total (auto manual : List (ℚ × ℚ)) : ℚ :=
  round2 (calc_auto_weighted auto + calc_manual_weighted manual)

lemma pyRound_nonneg {q : ℚ} (h : 0 ≤ q) : 0 ≤ pyRound q := by
  unfold pyRound
  have hf : (0:ℤ) ≤ ⌊q⌋ := Int.floor_nonneg.mpr h
  split_ifs <;> omega

lemma pyRound_le {q : ℚ} {n : ℤ} (h : q ≤ n) : pyRound q ≤ n := by
  unfold pyRound
  have hfn : ⌊q⌋ ≤ n := by
    calc ⌊q⌋ ≤ ⌊(n:ℚ)⌋ := Int.floor_le_floor h
    _ = n := Int.floor_intCast n
  have hfl : (⌊q⌋ : ℚ) ≤ q := Int.floor_le q
  have key : 1/2 ≤ q - ⌊q⌋ → ⌊q⌋ + 1 ≤ n := by
    intro hr
    have hlt : ((⌊q⌋ : ℤ) : ℚ) < (n : ℚ) := by linarith
    have : ⌊q⌋ < n := by exact_mod_cast hlt
    omega
  split_ifs with h1 h2 h3
  · exact hfn
  · exact key (le_of_lt h2)
  · exact hfn
  · exact key (by linarith)

lemma round2_nonneg {q : ℚ} (h : 0 ≤ q) : 0 ≤ round2 q := by
  unfold round2
  have h1 : (0 : ℤ) ≤ pyRound (q * 100) := pyRound_nonneg (by nlinarith)
  have h2 : (0 : ℚ) ≤ (pyRound (q * 100) : ℚ) := by exact_mod_cast h1
  linarith

lemma round2_le_int {q : ℚ} {n : ℤ} (h : q ≤ n) : round2 q ≤ n := by
  unfold round2
  have h100 : q * 100 ≤ ((n * 100 : ℤ) : ℚ) := by push_cast; linarith
  have hr := pyRound_le h100
  rw [div_le_iff₀ (by norm_num : (0:ℚ) < 100)]
  calc ((pyRound (q * 100) : ℤ) : ℚ) ≤ ((n * 100 : ℤ) : ℚ) := by
        exact_mod_cast hr
    _ = (n : ℚ) * 100 := by push_cast; ring

lemma weighted_sum_bound (sw : List (ℚ × ℚ)) (f : ℚ × ℚ → ℚ)
    (hf : ∀ p ∈ sw, 0 ≤ f p ∧ f p ≤ 4 * p.2) :
    0 ≤ (sw.map f).sum ∧
      (sw.map f).sum ≤ 4 * (sw.map Prod.snd).sum := by
  constructor
  · apply List.sum_nonneg
    intro x hx
    obtain ⟨p, hp, rfl⟩ := List.mem_map.mp hx
    exact (hf p hp).1
  · calc (sw.map f).sum ≤ (sw.map fun p => 4 * p.2).sum :=
          List.sum_le_sum (fun p hp => (hf p hp).2)
      _ = 4 * (sw.map Prod.snd).sum := List.sum_map_mul_left sw Prod.snd 4

/-- C4: for per-KPI scores in `[0, 4]` and non-negative weight tables
whose weights sum to 0.75 (auto) and 0.25 (manual) of the scale, the
grand total `calc_auto_weighted + calc_manual_weighted` (with each
stage rounded to two decimals as in the code) is never negative and
never exceeds 4. -/
theorem grand_total_bounded (auto manual : List (ℚ × ℚ))
    (ha : ∀ p ∈ auto, 0 ≤ p.1 ∧ p.1 ≤ 4 ∧ 0 ≤ p.2)
    (hm : ∀ p ∈ manual, 0 ≤ p.1 ∧ p.1 ≤ 4 ∧ 0 ≤ p.2)
    (hwa : (auto.map Prod.snd).sum = 3/4)
    (hwm : (manual.map Prod.snd).sum = 1/4) :
    0 ≤ grand_total auto manual ∧ grand_total auto manual ≤ 4 := by
  have hfa : ∀ p ∈ auto, 0 ≤ autoTerm p ∧ autoTerm p ≤ 4 * p.2 := by
    intro p hp
    obtain ⟨h1, h2, h3⟩ := ha p hp
    unfold autoTerm
    split_ifs with h
    · exact ⟨mul_nonneg h1 h3, mul_le_mul_of_nonneg_right h2 h3⟩
    · exact ⟨le_refl 0, mul_nonneg (by norm_num) h3⟩
  have hfm : ∀ p ∈ manual, 0 ≤ manualTerm p ∧ manualTerm p ≤ 4 * p.2 := by
    intro p hp
    obtain ⟨h1, h2, h3⟩ := hm p hp
    unfold manualTerm
    split_ifs with h
    · exact ⟨mul_nonneg h1 h3, mul_le_mul_of_nonneg_right h2 h3⟩
    · exact ⟨le_refl 0, mul_nonneg (by norm_num) h3⟩
  obtain ⟨ha0, ha1⟩ := weighted_sum_bound auto autoTerm hfa
  obtain ⟨hm0, hm1⟩ := weighted_sum_bound manual manualTerm hfm
  rw [hwa] at ha1
  rw [hwm] at hm1
  have hA0 : 0 ≤ calc_auto_weighted auto := round2_nonneg ha0
  have hA1 : calc_auto_weighted auto ≤ 3 := by
    have := round2_le_int (q := (auto.map autoTerm).sum) (n := 3)
      (by push_cast; linarith)
    simpa using this
  have hM0 : 0 ≤ calc_manual_weighted manual := round2_nonneg hm0
  have hM1 : calc_manual_weighted manual ≤ 1 := by
    have := round2_le_int (q := (manual.map manualTerm).sum) (n := 1)
      (by push_cast; linarith)
    simpa using this
  constructor
  · exact round2_nonneg (by linarith)
  · have := round2_le_int
      (q := calc_auto_weighted auto + calc_manual_weighted manual) (n := 4)
      (by push_cast; linarith)
    simpa [grand_total] using this

/-- Witness for C4 at a concrete 7-entry auto table and 3-entry manual
table with the weights of the spec shares. -/
theorem grand_total_bounded_witness :
    ((([(4, 15/100), (4, 15/100), (3, 1/10), (2, 1/10), (4, 1/10),
        (1, 1/10), (4, 1/20)] : List (ℚ × ℚ)).map Prod.snd).sum = 3/4) ∧
    ((([(4, 1/10), (0, 1/10), (3, 1/20)] : List (ℚ × ℚ)).map
        Prod.snd).sum = 1/4) ∧
    0 ≤ grand_total
        [(4, 15/100), (4, 15/100), (3, 1/10), (2, 1/10), (4, 1/10),
          (1, 1/10), (4, 1/20)]
        [(4, 1/10), (0, 1/10), (3, 1/20)] ∧
    grand_total
        [(4, 15/100), (4, 15/100), (3, 1/10), (2, 1/10), (4, 1/10),
          (1, 1/10), (4, 1/20)]
        [(4, 1/10), (0, 1/10), (3, 1/20)] ≤ 4 := by
  have h := grand_total_bounded
    [(4, 15/100), (4, 15/100), (3, 1/10), (2, 1/10), (4, 1/10),
      (1, 1/10), (4, 1/20)]
    [(4, 1/10), (0, 1/10), (3, 1/20)]
    (by intro p hp; fin_cases hp <;> norm_num)
    (by intro p hp; fin_cases hp <;> norm_num)
    (by norm_num)
    (by norm_num)
  exact ⟨by norm_num, by norm_num, h.1, h.2⟩

/-! ## Channel-to-team resolution

`pages/25_Team_KPI.py` and `pages/29_Weekly_Team_KPI.py` build the
channel-to-team mapping from the "Team Actual" sheet rows with

  nums = re.findall(r"(\\d+)", ch_src)
  for n in nums: channel_team_map[f"FB-FB-FB-DEERPROMO{int(n):02d}"] = team

and `pages/18_Team_Channel_By_Team.py` resolves through a literal
dictionary, defaulting to the catch-all group `Other`.  A Python dict
is modelled as an association list where a later insertion shadows an
earlier one. -/

/-- Maximal runs of decimal digits in a character list (the matches of
the pattern `\\d+`); `acc` holds the current run reversed. -/
def digitRunsAux : List Char → List Char → List (List Char)
  | [], acc => if acc = [] then [] else [acc.reverse]
  | c :: cs, acc =>
    if c.isDigit then digitRunsAux cs (c :: acc)
    else if acc = [] then digitRunsAux cs []
    else acc.reverse :: digitRunsAux cs []

/-- All maximal digit runs of a string, in order. -/
def digitRuns (s : String) : List (List Char) := digitRunsAux s.data []

/-- Numeric value of a digit run (Python `int(n)`, dropping leading
zeros). -/
def digitsToNat (ds : List Char) : Nat :=
  ds.foldl (fun a c => 10 * a + (c.toNat - 48)) 0

/-- Python `f"{n:02d}"`: left-pad with `0` to at least two digits. -/
def pad2 (n : Nat) : String := if n < 10 then "0" ++ toString n else toString n

/-- The constructed channel code `f"FB-FB-FB-DEERPROMO{int(n):02d}"`. -/
def promoCode (n : Nat) : String := "FB-FB-FB-DEERPROMO" ++ pad2 n

/-- Dict lookup in the association-list model (the head is the most
recent insertion). -/
def mapLookup (m : List (String × String)) (k : String) : Option String :=
  (m.find? (fun p => decide (p.1 = k))).map Prod.snd

/-- The channel-to-team map built from (team, channel_source) rows,
skipping rows with an empty team or source, inserting one entry per
digit run of the source. -/
def buildChannelTeamMap (rows : List (String × String)) :
    List (String × String) :=
  rows.foldl (fun m tr =>
    if tr.1 = "" ∨ tr.2 = "" then m
    else (digitRuns tr.2).foldl
      (fun acc ds => (promoCode (digitsToNat ds), tr.1) :: acc) m) []

/-- Stated from the words of the claim, for comparison with the code:
the same construction restricted to the 1-2 digit integers occurring in
the source string. -/
def buildChannelTeamMapSpec (rows : List (String × String)) :
    List (String × String) :=
  rows.foldl (fun m tr =>
    if tr.1 = "" ∨ tr.2 = "" then m
    else ((digitRuns tr.2).filter (fun ds => decide (ds.length ≤ 2))).foldl
      (fun acc ds => (promoCode (digitsToNat ds), tr.1) :: acc) m) []

lemma foldl_cons_eq_reverse_map {α β : Type} (g : α → β) :
    ∀ (l : List α) (acc : List β),
      l.foldl (fun a x => g x :: a) acc = (l.map g).reverse ++ acc := by
  intro l
  induction l with
  | nil => intro acc; rfl
  | cons x xs ih =>
    intro acc
    rw [List.foldl_cons, ih, List.map_cons, List.reverse_cons,
      List.append_assoc]
    rfl

/-- C8 counterexample: the code extracts every maximal digit run, not
only the 1-2 digit integers: the source string `Promo - 123` produces
the entry `FB-FB-FB-DEERPROMO123`, while the claim's extraction
produces no entry at all. -/
theorem channel_map_digit_runs_counterexample :
    buildChannelTeamMap [("T", "Promo - 123")] =
      [("FB-FB-FB-DEERPROMO123", "T")] ∧
    buildChannelTeamMapSpec [("T", "Promo - 123")] = [] ∧
    buildChannelTeamMap [("T", "Promo - 123")] ≠
      buildChannelTeamMapSpec [("T", "Promo - 123")] := by
  decide

/-- C8 (amended): for a non-empty team and source the built mapping has
exactly one entry per maximal digit run of the source (of any length),
with the run parsed as an integer and left-padded to at least two
digits inside the fixed code template; on the claim's example
`Promo - 07 - 12 - 13` this yields exactly the codes DEERPROMO07,
DEERPROMO12 and DEERPROMO13, all mapped to the row's team. -/
theorem channel_map_from_source (team src : String)
    (h : team ≠ "" ∧ src ≠ "") :
    buildChannelTeamMap [(team, src)] =
      ((digitRuns src).map
        (fun ds => (promoCode (digitsToNat ds), team))).reverse ∧
    buildChannelTeamMap [("T", "Promo - 07 - 12 - 13")] =
      [("FB-FB-FB-DEERPROMO13", "T"), ("FB-FB-FB-DEERPROMO12", "T"),
        ("FB-FB-FB-DEERPROMO07", "T")] ∧
    mapLookup (buildChannelTeamMap [("T", "Promo - 07 - 12 - 13")])
      "FB-FB-FB-DEERPROMO07" = some "T" ∧
    mapLookup (buildChannelTeamMap [("T", "Promo - 07 - 12 - 13")])
      "FB-FB-FB-DEERPROMO12" = some "T" ∧
    mapLookup (buildChannelTeamMap [("T", "Promo - 07 - 12 - 13")])
      "FB-FB-FB-DEERPROMO13" = some "T" := by
  refine ⟨?_, by decide, by decide, by decide, by decide⟩
  have h1 : ¬ (team = "" ∨ src = "") := by
    rcases h with ⟨ht, hs⟩
    rintro (hc | hc)
    · exact ht hc
    · exact hs hc
  unfold buildChannelTeamMap
  rw [List.foldl_cons, List.foldl_nil, if_neg h1,
    foldl_cons_eq_reverse_map, List.append_nil]

/-- Witness for C8 at a concrete mapping row. -/
theorem channel_map_from_source_witness :
    ("T2" : String) ≠ "" ∧ ("Promo - 6 - 8" : String) ≠ "" ∧
    buildChannelTeamMap [("T2", "Promo - 6 - 8")] =
      ((digitRuns "Promo - 6 - 8").map
        (fun ds => (promoCode (digitsToNat ds), "T2"))).reverse :=
  ⟨by decide, by decide,
    (channel_map_from_source "T2" "Promo - 6 - 8"
      ⟨by decide, by decide⟩).1⟩

/-! ## Team-level aggregation and unmapped channels -/

/-- One daily Team-Channel row. -/
structure TRow where
  channel : String
  date : Nat
  cost : ℚ
  registrations : ℚ
  first_recharge : ℚ
  total_amount : ℚ
deriving DecidableEq, Repr

/-- Row filter of `build_weekly_team_df`
(`pages/29_Weekly_Team_KPI.py`): keep only rows whose channel maps to a
team that is neither missing, empty nor the literal `All`. -/
def keptRow (m : List (String × String)) (r : TRow) : Bool :=
  match mapLookup m r.channel with
  | some t => decide (t ≠ "" ∧ t ≠ "All")
  | none => false

/-- One `(team, week)` aggregate cell of `build_weekly_team_df` for a
numeric column `f`: the sum of `f` over the kept rows of that team and
week. -/
def teamWeekSum (f : TRow → ℚ) (m : List (String × String))
    (rows : List TRow) (t : String) (wk : Nat × Nat) : ℚ :=
  ((rows.filter (fun r =>
    keptRow m r && decide (mapLookup m r.channel = some t) &&
      decide (get_tue_mon_week r.date = wk))).map f).sum

/-- The literal `CHANNEL_TO_TEAM` dictionary of
`pages/18_Team_Channel_By_Team.py`. -/
def CHANNEL_TO_TEAM : List (String × String) :=
  [("FB-FB-FB-DEERPROMO07", "JASON / SHILA / ADRIAN"),
   ("FB-FB-FB-DEERPROMO12", "JASON / SHILA / ADRIAN"),
   ("FB-FB-FB-DEERPROMO13", "JASON / SHILA / ADRIAN"),
   ("FB-FB-FB-DEERPROMO10", "RON / KRISSA"),
   ("FB-FB-FB-DEERPROMO11", "RON / KRISSA"),
   ("FB-FB-FB-DEERPROMO06", "JOMAR / MIKA"),
   ("FB-FB-FB-DEERPROMO08", "JOMAR / MIKA"),
   ("FB-FB-FB-DEERPROMO09", "DER")]

/-- `assign_team` of `pages/18_Team_Channel_By_Team.py`:
`CHANNEL_TO_TEAM.get(channel, "Other")`. -/
def assign_team (channel : String) : String :=
  (mapLookup CHANNEL_TO_TEAM channel).getD "Other"

/-- One per-team aggregate cell of page 18 for a numeric column `f`:
the sum of `f` over the rows assigned to team `t` (groupby
`promo_team`). -/
def teamSum18 (f : TRow → ℚ) (rows : List TRow) (t : String) : ℚ :=
  ((rows.filter (fun r => decide (assign_team r.channel = t))).map f).sum

/-- C9 counterexample: in `pages/18_Team_Channel_By_Team.py` an
unmapped channel such as DEERPROMO99 is not dropped: `assign_team`
resolves it to the catch-all group `Other`, and its cost contributes to
that group's aggregate row (and hence to the page's totals), so the row
is not excluded from every team-level aggregate. -/
theorem unmapped_channel_counterexample :
    mapLookup CHANNEL_TO_TEAM "FB-FB-FB-DEERPROMO99" = none ∧
    assign_team "FB-FB-FB-DEERPROMO99" = "Other" ∧
    teamSum18 TRow.cost
      [⟨"FB-FB-FB-DEERPROMO99", 9, 5, 0, 0, 0⟩] "Other" = 5 ∧
    (5 : ℚ) ≠ 0 := by
  refine ⟨by decide, by decide, ?_, by norm_num⟩
  unfold teamSum18
  simp [assign_team, mapLookup, CHANNEL_TO_TEAM, List.find?]

/-- C9 (amended): a daily row whose channel is absent from the mapping
is silently excluded from the weekly team aggregation of
`build_weekly_team_df` (it contributes to no team's summed cost,
registrations, first_recharge or total_amount, for every column `f`),
while in `pages/18_Team_Channel_By_Team.py` it is assigned the
catch-all group `Other`: it contributes to no named team's aggregate
but does contribute to the `Other` row; neither path raises. -/
theorem unmapped_channel_excluded (m : List (String × String))
    (r0 : TRow) (rows : List TRow) (f : TRow → ℚ)
    (h : mapLookup m r0.channel = none)
    (h18 : mapLookup CHANNEL_TO_TEAM r0.channel = none) :
    (∀ t wk, teamWeekSum f m (r0 :: rows) t wk =
      teamWeekSum f m rows t wk) ∧
    assign_team r0.channel = "Other" ∧
    (∀ t, t ≠ "Other" →
      teamSum18 f (r0 :: rows) t = teamSum18 f rows t) := by
  have hk : keptRow m r0 = false := by
    unfold keptRow
    rw [h]
  have ho : assign_team r0.channel = "Other" := by
    unfold assign_team
    rw [h18]
    rfl
  refine ⟨?_, ho, ?_⟩
  · intro t wk
    unfold teamWeekSum
    rw [List.filter_cons, hk]
    simp
  · intro t ht
    have hp : decide (assign_team r0.channel = t) = false :=
      decide_eq_false (fun hc => ht (by rw [← hc, ho]))
    unfold teamSum18
    rw [List.filter_cons, hp]
    simp

/-- Witness for C9 at a concrete unmapped row next to a mapped one. -/
theorem unmapped_channel_excluded_witness :
    mapLookup [("FB-FB-FB-DEERPROMO07", "Team A")]
      "FB-FB-FB-DEERPROMO99" = none ∧
    mapLookup CHANNEL_TO_TEAM "FB-FB-FB-DEERPROMO99" = none ∧
    teamWeekSum TRow.cost [("FB-FB-FB-DEERPROMO07", "Team A")]
      (⟨"FB-FB-FB-DEERPROMO99", 9, 5, 0, 0, 0⟩ ::
        [⟨"FB-FB-FB-DEERPROMO07", 9, 2, 0, 0, 0⟩]) "Team A"
      (get_tue_mon_week 9) =
    teamWeekSum TRow.cost [("FB-FB-FB-DEERPROMO07", "Team A")]
      [⟨"FB-FB-FB-DEERPROMO07", 9, 2, 0, 0, 0⟩] "Team A"
      (get_tue_mon_week 9) :=
  ⟨by decide, by decide,
    (unmapped_channel_excluded [("FB-FB-FB-DEERPROMO07", "Team A")]
      ⟨"FB-FB-FB-DEERPROMO99", 9, 5, 0, 0, 0⟩
      [⟨"FB-FB-FB-DEERPROMO07", 9, 2, 0, 0, 0⟩] TRow.cost
      (by decide) (by decide)).1 "Team A" (get_tue_mon_week 9)⟩

end AdsMonitoring
